import Mathlib

/-!
Shallow embedding of the pandabase core: the row-equality comparer and diff
engine (`src/Engine/Pandas/gen_difs.py`), the cache manager
(`src/Engine/Supabase/TableManager/CacheManager/cache_manager.py`), the table
stats (`src/Engine/Supabase/DBTypes/table_stats.py`) and the field type
validator (`src/Engine/Supabase/DBTypes/field.py`), together with theorems
about them.

Machine floats are modelled as exact rationals (the tolerance comparisons and
equalities exercised here are far from any rounding boundary), pandas
timestamps as an awareness flag plus an integer instant, and Python
exceptions as `Except Unit`.
-/

namespace Pandabase

/-- Cell value of a dataframe: Python/pandas scalars as they appear in the
row comparisons -- null (None/NaN/NaT), a numeric value, a text value, or a
timestamp (timezone-awareness flag and an integer encoding of the instant). -/
inductive PValue where
  | null : PValue
  | num : ℚ → PValue
  | str : String → PValue
  | time : Bool → ℤ → PValue
deriving DecidableEq

/-- Embeds `pd.isna(v)` for the scalar values modelled here. -/
def pd_isna : PValue → Bool
  | .null => true
  | _ => false

/-- Embeds `numpy.isclose(a, b, rtol=1e-05, atol=1e-08)` on scalars:
`|a - b| <= atol + rtol * |b|` for numeric inputs; non-numeric inputs make
numpy raise a `TypeError`, modelled as `.error ()`. -/
def numpy_isclose : PValue → PValue → Except Unit Bool
  | .num a, .num b =>
      .ok (decide (|a - b| ≤ 1 / 100000000 + 1 / 100000 * |b|))
  | _, _ => .error ()

/-- Numeric value of a decimal digit character. -/
def digit (c : Char) : ℕ := c.toNat - 48

/-- Integer encoding of a calendar timestamp; injective on the valid ranges
admitted by `parseCore`. -/
def ts_ticks (y mo d h mi s : ℕ) : ℤ :=
  ((((y * 372 + mo * 31 + d) * 24 + h) * 60 + mi) * 60 + s : ℕ)

/-- Shared core of the timestamp-string parser model: checks the digit and
range constraints of `YYYY-MM-DD{T| }HH:MM:SS` and produces the awareness
flag together with the instant encoding. -/
def parseCore (y1 y2 y3 y4 m1 m2 d1 d2 sp h1 h2 i1 i2 s1 s2 : Char)
    (aware : Bool) : Option (Bool × ℤ) :=
  if ([y1, y2, y3, y4, m1, m2, d1, d2, h1, h2, i1, i2, s1, s2].all Char.isDigit)
      ∧ (sp = 'T' ∨ sp = ' ') then
    let y := ((digit y1 * 10 + digit y2) * 10 + digit y3) * 10 + digit y4
    let mo := digit m1 * 10 + digit m2
    let d := digit d1 * 10 + digit d2
    let h := digit h1 * 10 + digit h2
    let mi := digit i1 * 10 + digit i2
    let s := digit s1 * 10 + digit s2
    if 1 ≤ mo ∧ mo ≤ 12 ∧ 1 ≤ d ∧ d ≤ 31 ∧ h ≤ 23 ∧ mi ≤ 59 ∧ s ≤ 59 then
      some (aware, ts_ticks y mo d h mi s)
    else none
  else none

/-- Modelled from pandas semantics: `pd.to_datetime` / `pd.Timestamp` on a
text value, for the ISO-like fragment the repository's comparisons rely on --
`YYYY-MM-DD` followed by a `T` or space separator, `HH:MM:SS`, and an
optional explicit UTC offset `+00:00` (which makes the result
timezone-aware). Anything else fails to parse (`ValueError`), modelled as
`none`. The two serializations of one instant that differ only in the
separator or in the presence of the offset parse accordingly. -/
def parseTSChars : List Char → Option (Bool × ℤ)
  | [y1, y2, y3, y4, '-', m1, m2, '-', d1, d2, sp,
     h1, h2, ':', i1, i2, ':', s1, s2] =>
      parseCore y1 y2 y3 y4 m1 m2 d1 d2 sp h1 h2 i1 i2 s1 s2 false
  | [y1, y2, y3, y4, '-', m1, m2, '-', d1, d2, sp,
     h1, h2, ':', i1, i2, ':', s1, s2, '+', '0', '0', ':', '0', '0'] =>
      parseCore y1 y2 y3 y4 m1 m2 d1 d2 sp h1 h2 i1 i2 s1 s2 true
  | _ => none

/-- Timestamp parsing of a string, see `parseTSChars`. -/
def parseTS (s : String) : Option (Bool × ℤ) := parseTSChars s.toList

/-- Modelled from pandas semantics: `pd.Timestamp(v)` on a scalar -- the
identity on timestamp values, string parsing on text (raising on parse
failure), and an error otherwise (numeric epoch inputs are not modelled; no
comparison in this development reaches them). -/
def pd_Timestamp : PValue → Except Unit (Bool × ℤ)
  | .time aw t => .ok (aw, t)
  | .str s =>
      match parseTS s with
      | some r => .ok r
      | none => .error ()
  | _ => .error ()

/-- Local (pandas) dtype of a column, the vocabulary used by
`gen_difs.py` and `field.py`. `datetime64nsUTC` and `string` are pandas
extension dtypes, not `numpy.dtype` instances. -/
inductive Dtype where
  | int16 : Dtype
  | int32 : Dtype
  | int64 : Dtype
  | float32 : Dtype
  | float64 : Dtype
  | bool : Dtype
  | object : Dtype
  | string : Dtype
  | datetime64ns : Dtype
  | datetime64nsUTC : Dtype
deriving DecidableEq

/-- Embeds `pd.api.types.is_numeric_dtype(d if isinstance(d, numpy.dtype)
else 'fail')` from `gen_difs.py` lines 41-45: numeric numpy dtypes (which
include bool) answer true; extension dtypes fall to the `'fail'` literal,
for which pandas answers false. -/
def numeric_dtype_check : Dtype → Bool
  | .int16 | .int32 | .int64 | .float32 | .float64 | .bool => true
  | _ => false

/-- Embeds `pd.api.types.is_datetime64_any_dtype(d if isinstance(d,
numpy.dtype) else 'fail')` from `gen_difs.py` lines 49-53: only the naive
`datetime64[ns]` is a numpy dtype; the timezone-aware extension dtype falls
to `'fail'` and answers false. -/
def datetime_dtype_check : Dtype → Bool
  | .datetime64ns => true
  | _ => false

/-- Outcome of processing one column inside the `rows_are_equal` loop:
continue with the next column, return early from the whole function with a
boolean, or propagate an exception. -/
inductive ColOutcome where
  | next : ColOutcome
  | ret : Bool → ColOutcome
  | err : ColOutcome
deriving DecidableEq

/-- Embeds the standard-comparison tail of the `rows_are_equal` loop body
(`gen_difs.py` lines 56-77): equal values let the loop continue; unequal
text values are re-parsed as timestamps and the function returns the
comparison of the parsed instants (a parse failure is caught and falls back
to returning false); any other unequal pair returns false. -/
def standard_comparison (sVal dVal : PValue) : ColOutcome :=
  if sVal = dVal then .next
  else
    match sVal, dVal with
    | .str a, .str b =>
        match parseTS a, parseTS b with
        | some ta, some tb => .ret (ta = tb)
        | _, _ => .ret false
    | _, _ => .ret false

/-- Embeds the numeric-mismatch check (`gen_difs.py` lines 40-47): under a
numeric dtype, `numpy.isclose` failing returns false from the function, an
isclose exception propagates, and a passing isclose leaves the column
undecided (the body falls through to the later checks). `none` means the
check did not decide the column. -/
def numeric_check (dt : Dtype) (sVal dVal : PValue) : Option ColOutcome :=
  if numeric_dtype_check dt then
    match numpy_isclose sVal dVal with
    | .error _ => some .err
    | .ok c => if c then none else some (.ret false)
  else none

/-- Embeds the time-mismatch check (`gen_difs.py` lines 48-55): under a
naive datetime dtype, differing `pd.Timestamp` conversions return false, a
conversion failure propagates, and equal conversions leave the column
undecided. -/
def time_check (dt : Dtype) (sVal dVal : PValue) : Option ColOutcome :=
  if datetime_dtype_check dt then
    match pd_Timestamp sVal, pd_Timestamp dVal with
    | .ok a, .ok b => if a = b then none else some (.ret false)
    | _, _ => some .err
  else none

/-- Embeds the full `rows_are_equal` loop body for one non-ignored column
(`gen_difs.py` lines 31-77): null equality, null mismatch, the numeric
check, the time check, then the standard comparison. -/
def compare_values (dt : Dtype) (sVal dVal : PValue) : ColOutcome :=
  if pd_isna sVal && pd_isna dVal then .next
  else if pd_isna sVal != pd_isna dVal then .ret false
  else
    match numeric_check dt sVal dVal with
    | some o => o
    | none =>
        match time_check dt sVal dVal with
        | some o => o
        | none => standard_comparison sVal dVal

/-- Row of a dataframe: the ordered column index paired with the cell
values, as `pd.Series` exposes it to `rows_are_equal`. -/
def Row : Type := List (String × PValue)

instance : DecidableEq Row := by
  unfold Row
  infer_instance

/-- Association-list lookup with propositional key equality; models lookup
in a Python dict or in a `pd.Series` by label. -/
def alookup {α β : Type} [DecidableEq α] : List (α × β) → α → Option β
  | [], _ => none
  | p :: rest, k => if p.1 = k then some p.2 else alookup rest k

/-- Default of the `ignore_columns` parameter of `rows_are_equal`
(`gen_difs.py` line 9). -/
def default_ignore_columns : List String := ["created_at", "updated_at"]

/-- Loop of `rows_are_equal` over the source row's columns (`gen_difs.py`
lines 25-79): ignored columns are skipped, a missing destination label is a
`KeyError`, and each compared column either continues the loop, returns
early, or raises. An exhausted loop returns true. -/
def rows_loop (dtypes : String → Dtype) (ignore : List String) (dRow : Row) :
    List (String × PValue) → Except Unit Bool
  | [] => .ok true
  | (col, sVal) :: rest =>
      if col ∈ ignore then rows_loop dtypes ignore dRow rest
      else
        match alookup dRow col with
        | none => .error ()
        | some dVal =>
            match compare_values (dtypes col) sVal dVal with
            | .next => rows_loop dtypes ignore dRow rest
            | .ret b => .ok b
            | .err => .error ()

/-- Embeds `rows_are_equal(source_row, destination_row, dtypes,
ignore_columns)` of `gen_difs.py`. The `dtypes` dict is modelled as a total
function: in `gen_diffs` it is built over exactly the source columns being
iterated. -/
def rows_are_equal (sRow dRow : Row) (dtypes : String → Dtype)
    (ignore : List String) : Except Unit Bool :=
  rows_loop dtypes ignore dRow sRow

/-- Dataframe: the ordered column names, the per-column dtypes (the pandas
`df[col].dtype` lookup, total here because it is only consulted on the
frame's own columns), and the rows in positional order. -/
structure Df where
  cols : List String
  dtypes : String → Dtype
  rows : List Row

/-- Primary-key tuple of a row, `tuple(row[primary_keys])` in `gen_diffs`. -/
def pkTuple (pks : List String) (row : Row) : List (Option PValue) :=
  pks.map (fun k => alookup row k)

/-- Key of the primary-key-to-index dictionaries in `gen_diffs`. -/
abbrev PKey : Type := List (Option PValue)

/-- Pairs `(pk tuple, positional index)` produced by iterating the rows of a
dataframe starting at offset `n`, the generator underlying the dict
comprehensions of `gen_diffs` (lines 104-111). -/
def pk_entries (pks : List String) : List Row → ℕ → List (PKey × ℕ)
  | [], _ => []
  | r :: rest, n => (pkTuple pks r, n) :: pk_entries pks rest (n + 1)

/-- Collapses key-value pairs with Python-dict semantics: a key inserted
several times keeps the value of its last insertion. -/
def dict_last {α β : Type} [DecidableEq α] : List (α × β) → List (α × β)
  | [] => []
  | p :: rest =>
      let m := dict_last rest
      if (alookup m p.1).isSome then m else p :: m

/-- The `{tuple(row[primary_keys]): idx for idx, row in df.iterrows()}`
dictionaries of `gen_diffs` (lines 104-111). -/
def index_by_pk (pks : List String) (rows : List Row) : List (PKey × ℕ) :=
  dict_last (pk_entries pks rows 0)

/-- The upsert-gathering loop of `gen_diffs` (lines 115-129): a source
record whose key is new to the destination is an upsert; one whose key
exists is compared with `rows_are_equal` and is an upsert when the rows are
not equal; a comparison exception aborts the whole computation. -/
def upsert_loop (src dst : Df) (dIdx : List (PKey × ℕ)) :
    List (PKey × ℕ) → Except Unit (List ℕ)
  | [] => .ok []
  | (pk, i) :: rest =>
      match alookup dIdx pk with
      | none =>
          match upsert_loop src dst dIdx rest with
          | .ok l => .ok (i :: l)
          | .error e => .error e
      | some j =>
          match src.rows[i]?, dst.rows[j]? with
          | some sRow, some dRow =>
              match rows_are_equal sRow dRow src.dtypes default_ignore_columns with
              | .ok b =>
                  match upsert_loop src dst dIdx rest with
                  | .ok l => .ok (if b then l else i :: l)
                  | .error e => .error e
              | .error e => .error e
          | _, _ => .error ()

/-- The delete-index set of `gen_diffs` (lines 131-134): destination indices
whose primary-key tuple is absent from the source dictionary. -/
def delete_idx (sIdx dIdx : List (PKey × ℕ)) : List ℕ :=
  (dIdx.filter (fun p => (alookup sIdx p.1).isNone)).map (fun p => p.2)

/-- Positional row selection, `df.iloc[list(idxs)]`; the indices produced by
`gen_diffs` are always in range. -/
def iloc_rows (rows : List Row) (idxs : List ℕ) : List Row :=
  idxs.filterMap (fun i => rows[i]?)

/-- Embeds `gen_diffs(df_source, df_destination, primary_keys)` of
`gen_difs.py`: an absent destination returns the source itself as the
upserts; otherwise the primary-key dictionaries are built, the upsert and
delete index sets computed, and each side is materialized as a dataframe
when non-empty and as `none` when empty. -/
def gen_diffs (src : Df) (dst : Option Df) (pks : List String) :
    Except Unit (Option Df × Option Df) :=
  match dst with
  | none => .ok (some src, none)
  | some d =>
      let sIdx := index_by_pk pks src.rows
      let dIdx := index_by_pk pks d.rows
      match upsert_loop src d dIdx sIdx with
      | .error e => .error e
      | .ok upIdx =>
          let delIdx := delete_idx sIdx dIdx
          let upsert_df : Option Df :=
            if upIdx = [] then none
            else some (Df.mk src.cols src.dtypes (iloc_rows src.rows upIdx))
          let delete_df : Option Df :=
            if delIdx = [] then none
            else some (Df.mk d.cols d.dtypes (iloc_rows d.rows delIdx))
          .ok (upsert_df, delete_df)

/-- Embeds the `TableStats` dataclass of `table_stats.py`: the remote
last-modified instant (an integer encoding of the datetime), the record
count and the total-modification counter (Python ints). -/
structure TableStats where
  last_modified : ℤ
  record_count : ℤ
  total_modifications : ℤ
deriving DecidableEq

/-- Embeds `TableStats.validate` (`table_stats.py` lines 64-88): collects an
issue string per mismatching field and returns `(True, [])` when no issue
was found, `(False, issues)` otherwise. The log-message text is abbreviated;
no behaviour depends on it. -/
def TableStats.validate (self other : TableStats) : Bool × List String :=
  let issues : List String :=
    (if self.last_modified ≠ other.last_modified
      then ["cached last_modified does not match new"] else []) ++
    (if self.record_count ≠ other.record_count
      then ["cached record_count does not match new"] else []) ++
    (if self.total_modifications ≠ other.total_modifications
      then ["cached total_modifications does not match new"] else [])
  if issues.length = 0 then (true, []) else (false, issues)

/-- Embeds the `CacheMetadata` dataclass of `cache_metadata.py`; the hex
digest is modelled as a natural number. -/
structure CacheMetadata where
  stats : TableStats
  data_hash : ℕ
deriving DecidableEq

/-- The in-memory cache fields of a `CacheManager`
(`cache_manager.py` lines 27-29). -/
structure CMState where
  local_df : Option Df
  local_stats : Option TableStats
  local_hash : Option ℕ

/-- Textual form of one cell in the CSV serialization that feeds the
content hash. -/
def csv_cell : PValue → String
  | .null => ""
  | .num q => toString q.num ++ "/" ++ toString q.den
  | .str s => s
  | .time aware t => toString t ++ (if aware then "+00:00" else "")

/-- Canonical serialization of a dataframe, the `df.to_csv(index=False)`
string that `calculate_hash` digests: the column header line followed by
one line per row. -/
def to_csv (df : Df) : String :=
  String.intercalate "," df.cols ++ "\n" ++
    String.intercalate "\n"
      (df.rows.map (fun r =>
        String.intercalate "," (r.map (fun p => csv_cell p.2))))

/-- Embeds `CacheManager.calculate_hash` (`cache_manager.py` lines 71-77).
The SHA-256 hex digest of the serialized dataframe is modelled as a
deterministic digest of the same serialization; every property proved here
uses only that the function is a deterministic function of the dataframe. -/
def calculate_hash (df : Df) : ℕ :=
  (to_csv df).toList.foldl (fun h c => h * 131 + c.toNat) 7

/-- Embeds `CacheManager.validate_cache` (`cache_manager.py` lines 79-122):
missing snapshot, stats or hash invalidates; mismatching table stats
invalidate; a row count differing from the external record count
invalidates; a stored hash differing from the recomputed hash of the local
dataframe invalidates; otherwise the cache is valid. -/
def validate_cache (st : CMState) (external_stats : TableStats) : Bool :=
  match st.local_df, st.local_stats, st.local_hash with
  | some df, some stats, some h =>
      if (TableStats.validate stats external_stats).1 = false then false
      else if (df.rows.length : ℤ) ≠ external_stats.record_count then false
      else if h ≠ calculate_hash df then false
      else true
  | _, _, _ => false

/-- Observable result of one `update_cache` call: the cache fields after the
call, what was persisted to durable storage (`None` when nothing was
written), and the Python return value of the call -- the source function is
annotated `-> None` and has no return statement, so the caller always
receives `None`, modelled as `none`. -/
structure UpdateResult where
  state : CMState
  persisted : Option (Df × CacheMetadata)
  retval : Option Bool

/-- Embeds `CacheManager.update_cache` (`cache_manager.py` lines 124-167),
generalized over the hash computation so that its failure path (the `except`
branch) is expressible: the three current field values are saved, the
dataframe and stats fields are assigned, and then the hash is computed. On
success the hash field is assigned, a `CacheMetadata` is formed and the new
dataframe and metadata are persisted; on a hash failure all three fields
are rolled back to the saved values and nothing is persisted. In both
outcomes the call returns `None`. -/
def update_cache_gen (hash_fn : Df → Except Unit ℕ) (st : CMState)
    (stats : TableStats) (df : Df) : UpdateResult :=
  let current_df := st.local_df
  let current_stats := st.local_stats
  let current_hash := st.local_hash
  let st1 : CMState := { st with local_df := some df }
  let st2 : CMState := { st1 with local_stats := some stats }
  match hash_fn df with
  | .ok h =>
      let st3 : CMState := { st2 with local_hash := some h }
      let new_meta : CacheMetadata := ⟨stats, h⟩
      { state := st3, persisted := some (df, new_meta), retval := none }
  | .error _ =>
      { state := { st2 with local_df := current_df,
                            local_stats := current_stats,
                            local_hash := current_hash },
        persisted := none, retval := none }

/-- `update_cache` with the actual (total in this model) hash function. -/
def update_cache (st : CMState) (stats : TableStats) (df : Df) : UpdateResult :=
  update_cache_gen (fun d => .ok (calculate_hash d)) st stats df

/-- Embeds the `Field` dataclass of `field.py` (the fields consulted by the
validation methods; the derived `pd_dtype` convenience field is not
modelled). -/
structure Field where
  name : String
  udt_name : String
  data_type : String
  is_nullable : Bool
  is_primary_key : Bool
  has_unique_constraint : Bool
  has_foreign_key : Bool
  has_default : Bool

/-- A pandas series as `type_validation` sees it: its dtype and its values. -/
structure Series where
  dtype : Dtype
  values : List PValue

/-- Embeds the `validity_map` dict of `validity_map.py`: declared
PostgreSQL udt name to the list of acceptable pandas dtype names; names
absent from the map give the empty list (`validity_map.get(udt, [])`). -/
def validity_map (udt : String) : List String :=
  if udt = "int2" then ["int16"]
  else if udt = "int4" then ["int32"]
  else if udt = "int8" then ["int64"]
  else if udt = "float4" then ["float32"]
  else if udt = "float8" then ["float64"]
  else if udt = "numeric" then ["float64"]
  else if udt = "varchar" then ["object", "string"]
  else if udt = "bpchar" then ["object", "string"]
  else if udt = "text" then ["object", "string"]
  else if udt = "bool" then ["bool", "boolean"]
  else if udt = "date" then ["datetime64[ns]"]
  else if udt = "time" then ["object"]
  else if udt = "timetz" then ["object"]
  else if udt = "timestamp" then ["datetime64[ns]"]
  else if udt = "timestamptz" then ["datetime64[ns, UTC]"]
  else if udt = "json" then ["object"]
  else if udt = "jsonb" then ["object"]
  else if udt = "uuid" then ["object"]
  else if udt ∈ ["point", "line", "lseg", "box", "path", "polygon", "circle"]
    then ["object"]
  else if udt ∈ ["_int2", "_int4", "_int8", "_float4", "_float8", "_numeric",
    "_bool", "_varchar", "_text", "_timestamp", "_timestamptz", "_json",
    "_jsonb", "_uuid", "_point", "_line", "_lseg", "_box", "_path",
    "_polygon", "_circle"] then ["object"]
  else []

/-- Lowercase form of an ASCII character, `Char.toLower` restricted to the
ASCII range the PostgreSQL udt names live in. -/
def ascii_lower (c : Char) : Char :=
  if 65 ≤ c.toNat ∧ c.toNat ≤ 90 then Char.ofNat (c.toNat + 32) else c

/-- Embeds Python's `str.lower()` on the ASCII udt names. -/
def py_lower (s : String) : String := String.mk (s.toList.map ascii_lower)

/-- The pandas name of a dtype, `str(series.dtype)`. -/
def dtypeName : Dtype → String
  | .int16 => "int16"
  | .int32 => "int32"
  | .int64 => "int64"
  | .float32 => "float32"
  | .float64 => "float64"
  | .bool => "bool"
  | .object => "object"
  | .string => "string"
  | .datetime64ns => "datetime64[ns]"
  | .datetime64nsUTC => "datetime64[ns, UTC]"

/-- Embeds `pd.api.types.is_integer_dtype(series)` on the dtypes modelled
here. -/
def is_integer_dtype : Dtype → Bool
  | .int16 | .int32 | .int64 => true
  | _ => false

/-- Embeds `pd.api.types.is_float_dtype(series)` on the dtypes modelled
here. -/
def is_float_dtype : Dtype → Bool
  | .float32 | .float64 => true
  | _ => false

/-- Embeds the `int_downcast_map` dict of `int_downcast_map.py` as
`(dtype, min, max)` triples. -/
def int_downcast_map : List (String × ℚ × ℚ) :=
  [("int16", -32768, 32767),
   ("int32", -2147483648, 2147483647),
   ("int64", -9223372036854775808, 9223372036854775807)]

/-- Embeds the `float_downcast_map` dict of `float_downcast_map.py` as
`(dtype, min, max)` triples (the unused precision entries are dropped). -/
def float_downcast_map : List (String × ℚ × ℚ) :=
  [("float32", -(34028235 * 10 ^ 31 : ℚ), (34028235 * 10 ^ 31 : ℚ)),
   ("float64", -(17976931348623157 * 10 ^ 292 : ℚ),
     (17976931348623157 * 10 ^ 292 : ℚ))]

/-- The numeric values of a series; under the numeric dtypes the non-null
values are numeric, so this is `series.dropna()` as the numeric validation
methods consume it. -/
def series_nums (s : Series) : List ℚ :=
  s.values.filterMap (fun v => match v with | .num q => some q | _ => none)

/-- The `min_val` of the downcast methods: 0 for an empty or all-null
series, the minimum value otherwise. -/
def series_min_val (s : Series) : ℚ :=
  match series_nums s with
  | [] => 0
  | q :: rest => rest.foldl min q

/-- The `max_val` of the downcast methods: 0 for an empty or all-null
series, the maximum value otherwise. -/
def series_max_val (s : Series) : ℚ :=
  match series_nums s with
  | [] => 0
  | q :: rest => rest.foldl max q

/-- Embeds `Field.valid_int_downcasts` (`field.py` lines 68-87): the int
dtypes whose range covers the observed `[min, max]`, followed by the float
dtypes whose range covers it. -/
def valid_int_downcasts (s : Series) : List String :=
  (int_downcast_map.filter
    (fun e => decide (e.2.1 ≤ series_min_val s ∧ series_max_val s ≤ e.2.2))).map
      (fun e => e.1) ++
  (float_downcast_map.filter
    (fun e => decide (e.2.1 ≤ series_min_val s ∧ series_max_val s ≤ e.2.2))).map
      (fun e => e.1)

/-- Embeds `Field.valid_float_downcasts` (`field.py` lines 89-118): the
float dtypes whose range covers the observed `[min, max]`, and additionally,
when the sum of the fractional parts over the non-null values is exactly
zero, the int dtypes whose range covers it. -/
def valid_float_downcasts (s : Series) : List String :=
  (float_downcast_map.filter
    (fun e => decide (e.2.1 ≤ series_min_val s ∧ series_max_val s ≤ e.2.2))).map
      (fun e => e.1) ++
  (if ((series_nums s).map (fun q => q - (⌊q⌋ : ℚ))).sum = 0 then
    (int_downcast_map.filter
      (fun e => decide (e.2.1 ≤ series_min_val s ∧ series_max_val s ≤ e.2.2))).map
        (fun e => e.1)
   else [])

/-- Embeds `Field.valid_timestamp_cast` (`field.py` lines 120-128):
`pd.to_datetime(series)` succeeds when every value converts -- nulls become
`NaT`, timestamps pass through, text values must parse (numeric epoch
values, which pandas also accepts, keep the model total here). -/
def valid_timestamp_cast (s : Series) : Bool :=
  s.values.all (fun v =>
    match v with
    | .null => true
    | .time _ _ => true
    | .num _ => true
    | .str t => (parseTS t).isSome)

/-- The nullable-numeric dtype-name list of `Field.type_validation`
(`field.py` line 149). -/
def numeric_dtypes : List String := ["int16", "int32", "int64", "float32", "float64"]

/-- Embeds `Field.type_validation` (`field.py` lines 130-180): unknown udt
names validate; an all-null series validates when the declared type accepts
any nullable-numeric or any text-like dtype; integer and float observed
dtypes validate through the downcast sets; timestamp/date declared types
validate through `valid_timestamp_cast`; anything else requires the literal
dtype name to be acceptable. -/
def type_validation (f : Field) (s : Series) : Bool :=
  let udt_lower := py_lower f.udt_name
  let valid_dtypes := validity_map udt_lower
  if valid_dtypes.length = 0 then true
  else if valid_dtypes.any (fun d => decide (d ∈ numeric_dtypes))
      ∧ s.values.all pd_isna then true
  else if valid_dtypes.any (fun d => decide (d ∈ (["object", "string"] : List String)))
      ∧ s.values.all pd_isna then true
  else if is_integer_dtype s.dtype then
    (valid_int_downcasts s).any (fun d => decide (d ∈ valid_dtypes))
  else if is_float_dtype s.dtype then
    (valid_float_downcasts s).any (fun d => decide (d ∈ valid_dtypes))
  else if udt_lower ∈ (["timestamp", "timestamptz", "date"] : List String) then
    valid_timestamp_cast s
  else decide (dtypeName s.dtype ∈ valid_dtypes)

/-! Concrete instances used to exercise the definitions. Object dtypes make
every comparison go through the direct-equality branch, which keeps the
evaluations independent of rational normalization. -/

/-- A dtype assignment mapping every column to the generic object dtype. -/
def dtypesObj : String → Dtype := fun _ => Dtype.object

/-- An empty dataframe with a single `id` column. -/
def dfEmptyId : Df := ⟨["id"], dtypesObj, []⟩

/-- Row with key 1. -/
def rowB1 : Row := [("id", .num 1), ("v", .num 10)]

/-- Row with key 2. -/
def rowB2 : Row := [("id", .num 2), ("v", .num 20)]

/-- Row with key 3. -/
def rowB3 : Row := [("id", .num 3), ("v", .num 30)]

/-- Source frame holding keys 1 and 2. -/
def srcB : Df := ⟨["id", "v"], dtypesObj, [rowB1, rowB2]⟩

/-- Destination frame holding keys 2 and 3, key 2 identical to the source. -/
def dstB : Df := ⟨["id", "v"], dtypesObj, [rowB2, rowB3]⟩

/-- Expected upsert frame for `srcB` against `dstB`. -/
def upB : Df := ⟨["id", "v"], dtypesObj, [rowB1]⟩

/-- Expected delete frame for `srcB` against `dstB`. -/
def delB : Df := ⟨["id", "v"], dtypesObj, [rowB3]⟩

/-- First row of the duplicate-key source: key 1, payload 10. -/
def rowD0 : Row := [("id", .num 1), ("v", .num 10)]

/-- Second row of the duplicate-key source: key 1 again, payload 20. -/
def rowD1 : Row := [("id", .num 1), ("v", .num 20)]

/-- Source frame whose two rows share the primary-key value 1. -/
def srcDup : Df := ⟨["id", "v"], dtypesObj, [rowD0, rowD1]⟩

/-- Destination frame equal to the last duplicate row only. -/
def dstDup : Df := ⟨["id", "v"], dtypesObj, [rowD1]⟩

/-- An empty cache-manager state. -/
def cmSt0 : CMState := ⟨none, none, none⟩

/-- Table stats matching a one-row dataframe. -/
def statsW : TableStats := ⟨0, 1, 0⟩

/-- A one-row dataframe. -/
def dfW : Df := ⟨["id"], dtypesObj, [[("id", .num 1)]]⟩

/-- A hash computation that fails, exercising the `except` branch of
`update_cache`. -/
def failing_hash : Df → Except Unit ℕ := fun _ => .error ()

/-- The hash computation `update_cache` actually uses. -/
def ok_hash : Df → Except Unit ℕ := fun d => .ok (calculate_hash d)

/-- A declared small-integer field. -/
def fieldInt2 : Field := ⟨"c", "int2", "smallint", true, false, false, false, false⟩

/-- An all-null column observed with the generic object dtype. -/
def seriesNullObj : Series := ⟨.object, [.null, .null]⟩

/-! Association-list and dictionary lemmas. -/

theorem alookup_eq_none_iff {α β : Type} [DecidableEq α] (l : List (α × β)) (k : α) :
    alookup l k = none ↔ ∀ p ∈ l, p.1 ≠ k := by
  induction l with
  | nil => simp [alookup]
  | cons p rest ih =>
      by_cases h : p.1 = k
      · simp [alookup, h]
      · simp [alookup, h, ih]

theorem alookup_mem {α β : Type} [DecidableEq α] {l : List (α × β)} {k : α} {v : β}
    (h : alookup l k = some v) : (k, v) ∈ l := by
  induction l with
  | nil => simp [alookup] at h
  | cons p rest ih =>
      by_cases hk : p.1 = k
      · simp only [alookup, if_pos hk] at h
        cases h
        have hkp : (k, p.2) = p := by rw [← hk]
        rw [hkp]
        exact List.mem_cons_self _ _
      · simp only [alookup, if_neg hk] at h
        exact List.mem_cons_of_mem _ (ih h)

theorem alookup_isSome_of_mem {α β : Type} [DecidableEq α] {l : List (α × β)} {k : α} {v : β}
    (h : (k, v) ∈ l) : (alookup l k).isSome = true := by
  induction l with
  | nil => simp at h
  | cons p rest ih =>
      rcases List.mem_cons.mp h with h1 | h2
      · simp [alookup, ← h1]
      · by_cases hk : p.1 = k
        · simp [alookup, hk]
        · simp only [alookup, if_neg hk]
          exact ih h2

theorem alookup_eq_some_of_nodup {α β : Type} [DecidableEq α] {l : List (α × β)}
    (hn : (l.map Prod.fst).Nodup) {k : α} {v : β} (h : (k, v) ∈ l) :
    alookup l k = some v := by
  induction l with
  | nil => simp at h
  | cons p rest ih =>
      simp only [List.map_cons, List.nodup_cons] at hn
      rcases List.mem_cons.mp h with h1 | h2
      · simp [alookup, ← h1]
      · have hk : p.1 ≠ k := by
          intro hk
          exact hn.1 (by simpa [hk] using List.mem_map_of_mem Prod.fst h2)
        simp [alookup, hk, ih hn.2 h2]

theorem dict_last_subset {α β : Type} [DecidableEq α] {l : List (α × β)} {p : α × β}
    (h : p ∈ dict_last l) : p ∈ l := by
  induction l with
  | nil => simp [dict_last] at h
  | cons q rest ih =>
      simp only [dict_last] at h
      split at h
      · exact List.mem_cons_of_mem _ (ih h)
      · rcases List.mem_cons.mp h with h1 | h2
        · exact h1 ▸ List.mem_cons_self _ _
        · exact List.mem_cons_of_mem _ (ih h2)

theorem alookup_dict_last_isSome {α β : Type} [DecidableEq α] {l : List (α × β)}
    {k : α} {v : β} (h : (k, v) ∈ l) : (alookup (dict_last l) k).isSome = true := by
  induction l with
  | nil => simp at h
  | cons q rest ih =>
      simp only [dict_last]
      rcases List.mem_cons.mp h with h1 | h2
      · split
        · rename_i hs
          have : q.1 = k := by rw [← h1]
          rwa [this] at hs
        · simp [alookup, show q.1 = k by rw [← h1]]
      · split
        · exact ih h2
        · by_cases hk : q.1 = k
          · simp [alookup, hk]
          · simpa [alookup, hk] using ih h2

theorem dict_last_keys_nodup {α β : Type} [DecidableEq α] (l : List (α × β)) :
    ((dict_last l).map Prod.fst).Nodup := by
  induction l with
  | nil => simp [dict_last]
  | cons q rest ih =>
      simp only [dict_last]
      split
      · exact ih
      · rename_i hs
        simp only [List.map_cons, List.nodup_cons]
        refine ⟨fun hmem => ?_, ih⟩
        obtain ⟨p, hp, hpk⟩ := List.mem_map.mp hmem
        have hm2 : (q.1, p.2) ∈ dict_last rest := by
          rw [← hpk]
          exact hp
        have := alookup_isSome_of_mem hm2
        simp [this] at hs

theorem dict_last_eq_self {α β : Type} [DecidableEq α] {l : List (α × β)}
    (hn : (l.map Prod.fst).Nodup) : dict_last l = l := by
  induction l with
  | nil => rfl
  | cons q rest ih =>
      simp only [List.map_cons, List.nodup_cons] at hn
      have hrest := ih hn.2
      have hnone : alookup rest q.1 = none := by
        rw [alookup_eq_none_iff]
        intro p hp hk
        exact hn.1 (by simpa [hk] using List.mem_map_of_mem Prod.fst hp)
      simp [dict_last, hrest, hnone]

theorem mem_dict_last_cons {α β : Type} [DecidableEq α] {q : α × β}
    {rest : List (α × β)} {p : α × β} (h : p ∈ dict_last (q :: rest)) :
    p ∈ dict_last rest ∨ (p = q ∧ alookup (dict_last rest) q.1 = none) := by
  simp only [dict_last] at h
  split at h
  · exact Or.inl h
  · rename_i hs
    rcases List.mem_cons.mp h with h1 | h2
    · exact Or.inr ⟨h1, Option.not_isSome_iff_eq_none.mp hs⟩
    · exact Or.inl h2

/-! Lemmas about the primary-key index construction. -/

theorem pk_entries_map_fst (pks : List String) (rows : List Row) (n : ℕ) :
    (pk_entries pks rows n).map Prod.fst = rows.map (pkTuple pks) := by
  induction rows generalizing n with
  | nil => rfl
  | cons r rest ih => simp [pk_entries, ih]

theorem pk_entries_snd_ge {pks : List String} {rows : List Row} {n : ℕ}
    {k : PKey} {v : ℕ} (h : (k, v) ∈ pk_entries pks rows n) : n ≤ v := by
  induction rows generalizing n with
  | nil => simp [pk_entries] at h
  | cons r rest ih =>
      rcases List.mem_cons.mp h with h1 | h2
      · cases h1
        exact le_refl _
      · exact le_trans (Nat.le_succ n) (ih h2)

theorem pk_entries_mem_of_getElem? {pks : List String} {rows : List Row}
    {i : ℕ} {row : Row} (h : rows[i]? = some row) (n : ℕ) :
    (pkTuple pks row, n + i) ∈ pk_entries pks rows n := by
  induction rows generalizing i n with
  | nil => simp at h
  | cons r rest ih =>
      cases i with
      | zero =>
          simp only [List.getElem?_cons_zero] at h
          cases h
          exact List.mem_cons_self _ _
      | succ m =>
          simp only [List.getElem?_cons_succ] at h
          have := ih h (n + 1)
          have harith : n + 1 + m = n + (m + 1) := by omega
          rw [harith] at this
          exact List.mem_cons_of_mem _ this

theorem pk_entries_spec {pks : List String} {rows : List Row} {n : ℕ}
    {k : PKey} {v : ℕ} (h : (k, v) ∈ pk_entries pks rows n) :
    ∃ i row, rows[i]? = some row ∧ k = pkTuple pks row ∧ v = n + i := by
  induction rows generalizing n with
  | nil => simp [pk_entries] at h
  | cons r rest ih =>
      rcases List.mem_cons.mp h with h1 | h2
      · cases h1
        exact ⟨0, r, by simp⟩
      · obtain ⟨i, row, hget, hk, hv⟩ := ih h2
        exact ⟨i + 1, row, by simpa using hget, hk, by omega⟩

theorem pk_entries_snds_nodup (pks : List String) (rows : List Row) (n : ℕ) :
    ((pk_entries pks rows n).map Prod.snd).Nodup := by
  induction rows generalizing n with
  | nil => simp [pk_entries]
  | cons r rest ih =>
      simp only [pk_entries, List.map_cons, List.nodup_cons]
      refine ⟨fun hmem => ?_, ih (n + 1)⟩
      obtain ⟨p, hp, hpv⟩ := List.mem_map.mp hmem
      have := pk_entries_snd_ge (show ((p.1, p.2) : PKey × ℕ) ∈ _ by simpa using hp)
      omega

/-! Lemmas about the upsert loop. -/

theorem upsert_loop_cons_inv {src dst : Df} {dIdx : List (PKey × ℕ)}
    {qk : PKey} {qi : ℕ} {rest : List (PKey × ℕ)} {l : List ℕ}
    (hok : upsert_loop src dst dIdx ((qk, qi) :: rest) = .ok l) :
    (∃ l0, alookup dIdx qk = none ∧ upsert_loop src dst dIdx rest = .ok l0 ∧
      l = qi :: l0) ∨
    (∃ j sRow dRow b l0, alookup dIdx qk = some j ∧ src.rows[qi]? = some sRow ∧
      dst.rows[j]? = some dRow ∧
      rows_are_equal sRow dRow src.dtypes default_ignore_columns = .ok b ∧
      upsert_loop src dst dIdx rest = .ok l0 ∧
      l = if b then l0 else qi :: l0) := by
  simp only [upsert_loop] at hok
  split at hok
  · rename_i halo
    split at hok
    · rename_i l0 hrest
      cases hok
      exact Or.inl ⟨l0, halo, hrest, rfl⟩
    · cases hok
  · rename_i j halo
    split at hok
    · rename_i sRow dRow hs hd
      split at hok
      · rename_i b heq
        split at hok
        · rename_i l0 hrest
          cases hok
          exact Or.inr ⟨j, sRow, dRow, b, l0, halo, hs, hd, heq, hrest, rfl⟩
        · cases hok
      · cases hok
    · cases hok

theorem upsert_loop_mem_of_new {src dst : Df} {dIdx : List (PKey × ℕ)}
    {items : List (PKey × ℕ)} {l : List ℕ}
    (hok : upsert_loop src dst dIdx items = .ok l) {pk : PKey} {i : ℕ}
    (hmem : (pk, i) ∈ items) (hnone : alookup dIdx pk = none) : i ∈ l := by
  induction items generalizing l with
  | nil => simp at hmem
  | cons q rest ih =>
      obtain ⟨qk, qi⟩ := q
      rcases upsert_loop_cons_inv hok with
        ⟨l0, halo, hrest, rfl⟩ | ⟨j, sRow, dRow, b, l0, halo, hs, hd, heq, hrest, rfl⟩
      · rcases List.mem_cons.mp hmem with h1 | h2
        · cases h1
          exact List.mem_cons_self _ _
        · exact List.mem_cons_of_mem _ (ih hrest h2)
      · rcases List.mem_cons.mp hmem with h1 | h2
        · cases h1
          rw [hnone] at halo
          cases halo
        · have hmem0 := ih hrest h2
          cases b
          · exact List.mem_cons_of_mem _ hmem0
          · exact hmem0

theorem upsert_loop_sound {src dst : Df} {dIdx : List (PKey × ℕ)}
    {items : List (PKey × ℕ)} {l : List ℕ}
    (hok : upsert_loop src dst dIdx items = .ok l) {i : ℕ} (hi : i ∈ l) :
    ∃ pk, (pk, i) ∈ items := by
  induction items generalizing l with
  | nil =>
      simp only [upsert_loop] at hok
      cases hok
      simp at hi
  | cons q rest ih =>
      obtain ⟨qk, qi⟩ := q
      rcases upsert_loop_cons_inv hok with
        ⟨l0, halo, hrest, rfl⟩ | ⟨j, sRow, dRow, b, l0, halo, hs, hd, heq, hrest, rfl⟩
      · rcases List.mem_cons.mp hi with h1 | h2
        · exact ⟨qk, by rw [h1]; exact List.mem_cons_self _ _⟩
        · obtain ⟨pk, hpk⟩ := ih hrest h2
          exact ⟨pk, List.mem_cons_of_mem _ hpk⟩
      · cases b
        · rcases List.mem_cons.mp hi with h1 | h2
          · exact ⟨qk, by rw [h1]; exact List.mem_cons_self _ _⟩
          · obtain ⟨pk, hpk⟩ := ih hrest h2
            exact ⟨pk, List.mem_cons_of_mem _ hpk⟩
        · obtain ⟨pk, hpk⟩ := ih hrest hi
          exact ⟨pk, List.mem_cons_of_mem _ hpk⟩

theorem upsert_loop_not_mem_of_equal {src dst : Df} {dIdx : List (PKey × ℕ)}
    {items : List (PKey × ℕ)} {l : List ℕ}
    (hok : upsert_loop src dst dIdx items = .ok l)
    (hsnd : (items.map Prod.snd).Nodup) {pk : PKey} {i j : ℕ} {sRow dRow : Row}
    (hmem : (pk, i) ∈ items) (hj : alookup dIdx pk = some j)
    (hs : src.rows[i]? = some sRow) (hd : dst.rows[j]? = some dRow)
    (heq : rows_are_equal sRow dRow src.dtypes default_ignore_columns = .ok true) :
    i ∉ l := by
  induction items generalizing l with
  | nil => simp at hmem
  | cons q rest ih =>
      obtain ⟨qk, qi⟩ := q
      simp only [List.map_cons, List.nodup_cons] at hsnd
      rcases List.mem_cons.mp hmem with h1 | h2
      · cases h1
        rcases upsert_loop_cons_inv hok with
          ⟨l0, halo, hrest, rfl⟩ | ⟨j', sRow', dRow', b, l0, halo, hs', hd', heq', hrest, rfl⟩
        · rw [hj] at halo
          cases halo
        · rw [hj] at halo
          cases halo
          rw [hs] at hs'
          cases hs'
          rw [hd] at hd'
          cases hd'
          rw [heq] at heq'
          cases heq'
          intro hin
          have ⟨pk', hpk'⟩ := upsert_loop_sound hrest hin
          exact hsnd.1 (by simpa using List.mem_map_of_mem Prod.snd hpk')
      · have hqi : qi ≠ i := by
          intro hqi
          exact hsnd.1 (by simpa [hqi] using List.mem_map_of_mem Prod.snd h2)
        rcases upsert_loop_cons_inv hok with
          ⟨l0, halo, hrest, rfl⟩ | ⟨j', sRow', dRow', b, l0, halo, hs', hd', heq', hrest, rfl⟩
        · intro hin
          rcases List.mem_cons.mp hin with h1 | hrest_in
          · exact hqi h1.symm
          · exact ih hrest hsnd.2 h2 hrest_in
        · cases b
          · intro hin
            rcases List.mem_cons.mp hin with h1 | hrest_in
            · exact hqi h1.symm
            · exact ih hrest hsnd.2 h2 hrest_in
          · exact ih hrest hsnd.2 h2

/-! Remaining helper lemmas. -/

theorem mem_iloc_rows {rows : List Row} {idxs : List ℕ} {row : Row} :
    row ∈ iloc_rows rows idxs ↔ ∃ i ∈ idxs, rows[i]? = some row := by
  simp [iloc_rows, List.mem_filterMap]

theorem nodup_getElem?_inj {α : Type} {l : List α} (h : l.Nodup) {i j : ℕ} {a : α}
    (hi : l[i]? = some a) (hj : l[j]? = some a) : i = j := by
  induction l generalizing i j with
  | nil => simp at hi
  | cons x xs ih =>
      simp only [List.nodup_cons] at h
      cases i with
      | zero =>
          cases j with
          | zero => rfl
          | succ m =>
              simp only [List.getElem?_cons_zero] at hi
              cases hi
              simp only [List.getElem?_cons_succ] at hj
              exact absurd (List.mem_iff_getElem?.mpr ⟨m, hj⟩) h.1
      | succ m =>
          cases j with
          | zero =>
              simp only [List.getElem?_cons_zero] at hj
              cases hj
              simp only [List.getElem?_cons_succ] at hi
              exact absurd (List.mem_iff_getElem?.mpr ⟨m, hi⟩) h.1
          | succ m2 =>
              simp only [List.getElem?_cons_succ] at hi hj
              exact congrArg Nat.succ (ih h.2 hi hj)

theorem alookup_dict_last_eq_none_iff {α β : Type} [DecidableEq α]
    (l : List (α × β)) (k : α) :
    alookup (dict_last l) k = none ↔ ∀ p ∈ l, p.1 ≠ k := by
  constructor
  · intro h p hp hk
    have hmem : (k, p.2) ∈ l := (show (k, p.2) = p by rw [← hk]) ▸ hp
    have := alookup_dict_last_isSome hmem
    simp [h] at this
  · intro h
    cases halo : alookup (dict_last l) k with
    | none => rfl
    | some v =>
        have hmem := dict_last_subset (alookup_mem halo)
        exact absurd rfl (h _ hmem)

theorem index_by_pk_alookup_none_iff (pks : List String) (rows : List Row)
    (pk : PKey) :
    alookup (index_by_pk pks rows) pk = none ↔
      ∀ row ∈ rows, pkTuple pks row ≠ pk := by
  rw [index_by_pk, alookup_dict_last_eq_none_iff]
  constructor
  · intro h row hrow hk
    obtain ⟨i, hi⟩ := List.mem_iff_getElem?.mp hrow
    exact h _ (pk_entries_mem_of_getElem? hi 0) hk
  · intro h p hp
    obtain ⟨i, row, hget, hk, _⟩ := pk_entries_spec hp
    rw [hk]
    exact h row (List.mem_iff_getElem?.mpr ⟨i, hget⟩)

theorem index_by_pk_eq_entries {pks : List String} {rows : List Row}
    (hn : (rows.map (pkTuple pks)).Nodup) :
    index_by_pk pks rows = pk_entries pks rows 0 := by
  rw [index_by_pk]
  exact dict_last_eq_self (by rw [pk_entries_map_fst]; exact hn)

theorem dict_last_alookup_last {pks : List String} {rows : List Row}
    {j : ℕ} {rowj : Row} (hj : rows[j]? = some rowj)
    (hlast : ∀ k rk, j < k → rows[k]? = some rk →
      pkTuple pks rk ≠ pkTuple pks rowj) (n : ℕ) :
    alookup (dict_last (pk_entries pks rows n)) (pkTuple pks rowj) =
      some (n + j) := by
  induction rows generalizing j n with
  | nil => simp at hj
  | cons r rest ih =>
      cases j with
      | zero =>
          simp only [List.getElem?_cons_zero] at hj
          cases hj
          have hnone : alookup (dict_last (pk_entries pks rest (n + 1)))
              (pkTuple pks rowj) = none := by
            rw [alookup_dict_last_eq_none_iff]
            intro p hp hk
            obtain ⟨i, rk, hget, hk2, _⟩ := pk_entries_spec hp
            refine hlast (i + 1) rk (Nat.succ_pos i) (by simpa using hget) ?_
            rw [← hk2, hk]
          simp only [pk_entries, dict_last, hnone, Option.isSome_none,
            Bool.false_eq_true, if_false, alookup, if_pos rfl]
          simp
      | succ m =>
          simp only [List.getElem?_cons_succ] at hj
          have hlast' : ∀ k rk, m < k → rest[k]? = some rk →
              pkTuple pks rk ≠ pkTuple pks rowj := by
            intro k rk hmk hget
            exact hlast (k + 1) rk (by omega) (by simpa using hget)
          have hih := ih hj hlast' (n + 1)
          simp only [pk_entries, dict_last]
          by_cases hsome : (alookup (dict_last (pk_entries pks rest (n + 1)))
              (pkTuple pks r)).isSome = true
          · rw [if_pos hsome, hih]
            congr 1
            omega
          · rw [if_neg hsome]
            by_cases hpk : pkTuple pks r = pkTuple pks rowj
            · exfalso
              rw [← hpk] at hih
              simp [hih] at hsome
            · have : ((pkTuple pks r, n) :: dict_last (pk_entries pks rest (n + 1)) :
                  List (PKey × ℕ)) = _ := rfl
              simp only [alookup, if_neg hpk, hih]
              congr 1
              omega

theorem index_by_pk_last {pks : List String} {rows : List Row} {j : ℕ}
    {rowj : Row} (hj : rows[j]? = some rowj)
    (hlast : ∀ k rk, j < k → rows[k]? = some rk →
      pkTuple pks rk ≠ pkTuple pks rowj) :
    alookup (index_by_pk pks rows) (pkTuple pks rowj) = some j := by
  have := dict_last_alookup_last hj hlast 0
  simpa [index_by_pk] using this

theorem dict_last_not_snd_of_dup {pks : List String} {rows : List Row}
    {i j : ℕ} {rowi rowj : Row} (hi : rows[i]? = some rowi)
    (hj : rows[j]? = some rowj) (hij : i < j)
    (hpk : pkTuple pks rowi = pkTuple pks rowj) (n : ℕ) :
    (n + i) ∉ (dict_last (pk_entries pks rows n)).map Prod.snd := by
  induction rows generalizing i j n with
  | nil => simp at hi
  | cons r rest ih =>
      cases i with
      | zero =>
          simp only [List.getElem?_cons_zero] at hi
          cases hi
          obtain ⟨m, rfl⟩ : ∃ m, j = m + 1 := ⟨j - 1, by omega⟩
          simp only [List.getElem?_cons_succ] at hj
          have hsome : (alookup (dict_last (pk_entries pks rest (n + 1)))
              (pkTuple pks rowi)).isSome = true := by
            have hmem := @pk_entries_mem_of_getElem? pks _ _ _ hj (n + 1)
            rw [← hpk] at hmem
            exact alookup_dict_last_isSome hmem
          simp only [pk_entries, dict_last, hsome, if_true]
          intro hmem
          obtain ⟨p, hp, hpv⟩ := List.mem_map.mp hmem
          have hge := pk_entries_snd_ge
            (show ((p.1, p.2) : PKey × ℕ) ∈ _ by simpa using dict_last_subset hp)
          omega
      | succ m1 =>
          obtain ⟨m2, rfl⟩ : ∃ m2, j = m2 + 1 := ⟨j - 1, by omega⟩
          simp only [List.getElem?_cons_succ] at hi hj
          have hih := ih hi hj (by omega) (n + 1)
          rw [show n + 1 + m1 = n + (m1 + 1) from by omega] at hih
          simp only [pk_entries, dict_last]
          by_cases hsome : (alookup (dict_last (pk_entries pks rest (n + 1)))
              (pkTuple pks r)).isSome = true
          · rw [if_pos hsome]
            exact hih
          · rw [if_neg hsome]
            intro hmem
            simp only [List.map_cons, List.mem_cons] at hmem
            rcases hmem with h1 | h2
            · omega
            · exact hih h2

theorem index_by_pk_not_snd_of_dup {pks : List String} {rows : List Row}
    {i j : ℕ} {rowi rowj : Row} (hi : rows[i]? = some rowi)
    (hj : rows[j]? = some rowj) (hij : i < j)
    (hpk : pkTuple pks rowi = pkTuple pks rowj) :
    i ∉ (index_by_pk pks rows).map Prod.snd := by
  have := dict_last_not_snd_of_dup hi hj hij hpk 0
  simpa [index_by_pk] using this

theorem tableStats_validate_fst_iff (s o : TableStats) :
    (TableStats.validate s o).1 = true ↔
      s.last_modified = o.last_modified ∧ s.record_count = o.record_count ∧
        s.total_modifications = o.total_modifications := by
  by_cases h1 : s.last_modified = o.last_modified <;>
    by_cases h2 : s.record_count = o.record_count <;>
      by_cases h3 : s.total_modifications = o.total_modifications <;>
        simp [TableStats.validate, h1, h2, h3]

theorem validate_cache_some_iff (df : Df) (stats : TableStats) (h : ℕ)
    (ext : TableStats) :
    validate_cache ⟨some df, some stats, some h⟩ ext = true ↔
      ((TableStats.validate stats ext).1 = true ∧
        (df.rows.length : ℤ) = ext.record_count ∧ h = calculate_hash df) := by
  rcases Bool.eq_false_or_eq_true (TableStats.validate stats ext).1 with h1 | h1 <;>
    by_cases h2 : (df.rows.length : ℤ) = ext.record_count <;>
      by_cases h3 : h = calculate_hash df <;>
        simp [validate_cache, h1, h2, h3]

theorem gen_diffs_some_inv {src d : Df} {pks : List String} {up del : Option Df}
    (hres : gen_diffs src (some d) pks = .ok (up, del)) :
    ∃ upIdx,
      upsert_loop src d (index_by_pk pks d.rows) (index_by_pk pks src.rows) =
        .ok upIdx ∧
      up = (if upIdx = [] then none
        else some (Df.mk src.cols src.dtypes (iloc_rows src.rows upIdx))) ∧
      del = (if delete_idx (index_by_pk pks src.rows) (index_by_pk pks d.rows) = []
        then none
        else some (Df.mk d.cols d.dtypes (iloc_rows d.rows
          (delete_idx (index_by_pk pks src.rows) (index_by_pk pks d.rows))))) := by
  simp only [gen_diffs] at hres
  split at hres
  · cases hres
  · rename_i upIdx hup
    rw [Except.ok.injEq, Prod.mk.injEq] at hres
    exact ⟨upIdx, hup, hres.1.symm, hres.2.symm⟩

theorem index_by_pk_entry_key {pks : List String} {rows : List Row}
    {p : PKey × ℕ} (hp : p ∈ index_by_pk pks rows) {row : Row}
    (hrow : rows[p.2]? = some row) : p.1 = pkTuple pks row := by
  rw [index_by_pk] at hp
  obtain ⟨i, row', hget, hk, hv⟩ := pk_entries_spec (dict_last_subset hp)
  have hi : p.2 = i := by omega
  rw [hi, hget] at hrow
  cases hrow
  exact hk

/-! Claim theorems. -/

/-- C1: evaluation of the code at the claimed inputs. The tolerance check
`numpy.isclose` does accept the pair 1.0000000001 / 1.0000000002 under a
numeric dtype, but because a passing check does not `continue` the loop, the
function falls through to the exact standard comparison and returns false --
not true as the claim (and the function's own stated intent of leaving
wiggle room for precision) requires. The pair 1.5 / 2.5 also returns
false. -/
theorem rows_are_equal_close_pair_eval :
    numpy_isclose (.num (10000000001 / 10000000000))
      (.num (10000000002 / 10000000000)) = .ok true ∧
    rows_are_equal [("v", .num (10000000001 / 10000000000))]
      [("v", .num (10000000002 / 10000000000))] (fun _ => .float64)
      default_ignore_columns = .ok false ∧
    rows_are_equal [("v", .num (3 / 2))] [("v", .num (5 / 2))]
      (fun _ => .float64) default_ignore_columns = .ok false := by
  refine ⟨?_, ?_, ?_⟩
  · simp only [numpy_isclose]
    norm_num [abs_of_pos, abs_of_nonneg]
  · simp only [rows_are_equal, rows_loop, alookup, compare_values, numeric_check,
      time_check, standard_comparison, numeric_dtype_check, datetime_dtype_check,
      numpy_isclose, pd_isna, default_ignore_columns]
    norm_num [abs_of_pos, abs_of_nonneg]
    decide
  · simp only [rows_are_equal, rows_loop, alookup, compare_values, numeric_check,
      time_check, standard_comparison, numeric_dtype_check, datetime_dtype_check,
      numpy_isclose, pd_isna, default_ignore_columns]
    norm_num [abs_of_pos, abs_of_nonneg]
    decide

/-- C2: evaluation of the code at a two-column row pair whose first column
holds two text timestamps denoting the same instant in different formats
while the second column holds plainly different values. The string-timestamp
fallback returns from the whole function as soon as the parsed instants
compare equal, so the pair compares equal (true) even though comparing the
second column alone returns false -- contradicting the claim (and the
function's stated contract of returning true only when the rows are
equal). -/
theorem rows_are_equal_timestamp_early_return_eval :
    rows_are_equal [("ts", .str "2024-01-01T00:00:00+00:00"), ("v", .num 1)]
      [("ts", .str "2024-01-01 00:00:00+00:00"), ("v", .num 2)]
      (fun _ => .object) default_ignore_columns = .ok true ∧
    rows_are_equal [("v", .num 1)] [("v", .num 2)] (fun _ => .object)
      default_ignore_columns = .ok false ∧
    (PValue.str "2024-01-01T00:00:00+00:00" ≠
      PValue.str "2024-01-01 00:00:00+00:00") :=
  ⟨rfl, rfl, by decide⟩

/-- C4: `validate_cache` returns true exactly when the snapshot, stats and
hash are all present, the cached stats equal the supplied external stats
field for field, the cached row count equals the external record count, and
the stored hash equals the recomputed content hash; so each failing check is
independently sufficient for a false result. -/
theorem validate_cache_iff (st : CMState) (ext : TableStats) :
    validate_cache st ext = true ↔
      ∃ df stats h, st.local_df = some df ∧ st.local_stats = some stats ∧
        st.local_hash = some h ∧
        stats.last_modified = ext.last_modified ∧
        stats.record_count = ext.record_count ∧
        stats.total_modifications = ext.total_modifications ∧
        (df.rows.length : ℤ) = ext.record_count ∧ h = calculate_hash df := by
  obtain ⟨odf, ost, oh⟩ := st
  cases odf with
  | none => simp [validate_cache]
  | some df =>
      cases ost with
      | none => simp [validate_cache]
      | some stats =>
          cases oh with
          | none => simp [validate_cache]
          | some h =>
              rw [validate_cache_some_iff, tableStats_validate_fst_iff]
              simp only [Option.some.injEq]
              constructor
              · rintro ⟨⟨e1, e2, e3⟩, e4, e5⟩
                exact ⟨df, stats, h, rfl, rfl, rfl, e1, e2, e3, e4, e5⟩
              · rintro ⟨df', stats', h', hdf, hst, hh, e1, e2, e3, e4, e5⟩
                cases hdf
                cases hst
                cases hh
                exact ⟨⟨e1, e2, e3⟩, e4, e5⟩

/-- C5 counterexample: with a failing hash computation the call does take
the rollback path (the state is restored and nothing is persisted), yet its
return value is `None` -- the same value a successful call returns -- so no
failure is reported to the caller, falsifying the claim's reporting
clause. -/
theorem update_cache_failure_not_reported :
    (update_cache_gen failing_hash cmSt0 statsW dfW).retval = none ∧
    (update_cache_gen failing_hash cmSt0 statsW dfW).retval ≠ some false ∧
    (update_cache_gen failing_hash cmSt0 statsW dfW).state = cmSt0 ∧
    (update_cache_gen failing_hash cmSt0 statsW dfW).persisted = none ∧
    (update_cache_gen ok_hash cmSt0 statsW dfW).retval = none :=
  ⟨rfl, by decide, rfl, rfl, rfl⟩

/-- C5 amended: on any failure during the update the three in-memory fields
are rolled back to their pre-update values and nothing is persisted, but the
call returns `None` without signalling the failure; on success all three
fields hold the new values and exactly those values are persisted (again
returning `None`). -/
theorem update_cache_rollback_and_success (hash_fn : Df → Except Unit ℕ)
    (st : CMState) (stats : TableStats) (df : Df) :
    ((∃ e, hash_fn df = .error e) →
      update_cache_gen hash_fn st stats df = ⟨st, none, none⟩) ∧
    (∀ h, hash_fn df = .ok h →
      update_cache_gen hash_fn st stats df =
        ⟨⟨some df, some stats, some h⟩, some (df, ⟨stats, h⟩), none⟩) := by
  constructor
  · rintro ⟨e, he⟩
    simp [update_cache_gen, he]
  · intro h hh
    simp [update_cache_gen, hh]

/-- C5 witness: the amended theorem applied to a failing and to a
succeeding hash computation on concrete inputs. -/
theorem update_cache_rollback_and_success_witness :
    update_cache_gen failing_hash cmSt0 statsW dfW = ⟨cmSt0, none, none⟩ ∧
    update_cache_gen ok_hash cmSt0 statsW dfW =
      ⟨⟨some dfW, some statsW, some (calculate_hash dfW)⟩,
        some (dfW, ⟨statsW, calculate_hash dfW⟩), none⟩ :=
  ⟨(update_cache_rollback_and_success failing_hash cmSt0 statsW dfW).1 ⟨(), rfl⟩,
    (update_cache_rollback_and_success ok_hash cmSt0 statsW dfW).2
      (calculate_hash dfW) rfl⟩

/-- C6 counterexample: under a numeric dtype, a non-null pair for which the
tolerance check does not pass is not decided by the generic fallback: for
two text timestamps of the same instant (mis-typed as numeric, the exact
defensive scenario the claim cites) `numpy.isclose` raises, the exception
propagates, and the fallback -- which would have returned true -- is never
evaluated. -/
theorem numeric_check_error_not_fallback :
    numeric_dtype_check .float64 = true ∧
    pd_isna (.str "2024-01-01T00:00:00+00:00") = false ∧
    pd_isna (.str "2024-01-01 00:00:00+00:00") = false ∧
    numpy_isclose (.str "2024-01-01T00:00:00+00:00")
      (.str "2024-01-01 00:00:00+00:00") = .error () ∧
    standard_comparison (.str "2024-01-01T00:00:00+00:00")
      (.str "2024-01-01 00:00:00+00:00") = .ret true ∧
    compare_values .float64 (.str "2024-01-01T00:00:00+00:00")
        (.str "2024-01-01 00:00:00+00:00") ≠
      standard_comparison (.str "2024-01-01T00:00:00+00:00")
        (.str "2024-01-01 00:00:00+00:00") ∧
    rows_are_equal [("v", .str "2024-01-01T00:00:00+00:00")]
      [("v", .str "2024-01-01 00:00:00+00:00")] (fun _ => .float64)
      default_ignore_columns = .error () :=
  ⟨rfl, rfl, rfl, rfl, rfl, by decide, rfl⟩

/-- C6 amended: under a numeric dtype a failing tolerance check on two
numeric values causes an immediate false return without evaluating the
fallback; it is a passing tolerance check that falls through to the generic
direct-equality / string-timestamp fallback for that column. -/
theorem numeric_tolerance_failure_immediate_false (dt : Dtype) (a b : ℚ)
    (hdt : numeric_dtype_check dt = true) :
    (numpy_isclose (.num a) (.num b) = .ok false →
      compare_values dt (.num a) (.num b) = .ret false) ∧
    (numpy_isclose (.num a) (.num b) = .ok true →
      compare_values dt (.num a) (.num b) =
        standard_comparison (.num a) (.num b)) := by
  have hdtt : datetime_dtype_check dt = false := by
    cases dt <;> simp_all [numeric_dtype_check, datetime_dtype_check]
  constructor
  · intro hc
    simp [compare_values, pd_isna, numeric_check, hdt, hc]
  · intro hc
    simp [compare_values, pd_isna, numeric_check, time_check, hdt, hdtt, hc]

/-- C6 witness: the amended theorem applied to 1.5 versus 2.5 (failing
tolerance, immediate false) and to 1 versus 1 (passing tolerance, decided by
the fallback). -/
theorem numeric_tolerance_failure_immediate_false_witness :
    compare_values .float64 (.num (3 / 2)) (.num (5 / 2)) = .ret false ∧
    compare_values .float64 (.num 1) (.num 1) =
      standard_comparison (.num 1) (.num 1) :=
  ⟨(numeric_tolerance_failure_immediate_false .float64 (3 / 2) (5 / 2) rfl).1
      (by simp only [numpy_isclose, Except.ok.injEq]
          rw [decide_eq_false_iff_not]
          norm_num [abs_of_pos, abs_of_nonneg, abs_of_nonpos]),
    (numeric_tolerance_failure_immediate_false .float64 1 1 rfl).2
      (by simp only [numpy_isclose, Except.ok.injEq]
          rw [decide_eq_true_eq]
          norm_num [abs_of_nonneg])⟩

/-- C7 counterexample: with the destination absent and the source empty,
`gen_diffs` returns the empty source dataframe itself as the upsert
selection -- an empty non-null collection -- rather than the claimed
`(absent, absent)`. -/
theorem gen_diffs_empty_source_absent_destination :
    gen_diffs dfEmptyId none ["id"] = .ok (some dfEmptyId, none) ∧
    (some dfEmptyId : Option Df) ≠ none ∧ dfEmptyId.rows = [] :=
  ⟨rfl, by simp, rfl⟩

/-- C7 amended: when the destination is absent, `gen_diffs` returns the
source dataframe itself (even when empty) as the upserts and an absent
delete set; when the destination is present, empty upsert and delete
selections are both represented as absent. -/
theorem gen_diffs_absent_representation (src d : Df) (pks : List String)
    (hup : upsert_loop src d (index_by_pk pks d.rows)
      (index_by_pk pks src.rows) = .ok [])
    (hdel : delete_idx (index_by_pk pks src.rows)
      (index_by_pk pks d.rows) = []) :
    gen_diffs src (some d) pks = .ok (none, none) ∧
    gen_diffs src none pks = .ok (some src, none) := by
  constructor
  · simp [gen_diffs, hup, hdel]
  · rfl

/-- C7 witness: the amended theorem applied to an empty source and an empty
destination. -/
theorem gen_diffs_absent_representation_witness :
    gen_diffs dfEmptyId (some dfEmptyId) ["id"] = .ok (none, none) ∧
    gen_diffs dfEmptyId none ["id"] = .ok (some dfEmptyId, none) :=
  gen_diffs_absent_representation dfEmptyId dfEmptyId ["id"] rfl rfl

/-- C8: for an all-null column, if the declared type's acceptable
representations include any nullable-numeric or any text-like dtype,
`type_validation` returns true regardless of the observed dtype of the
column. -/
theorem type_validation_all_null (f : Field) (s : Series)
    (hnull : s.values.all pd_isna = true)
    (hacc : (validity_map (py_lower f.udt_name)).any
        (fun d => decide (d ∈ numeric_dtypes)) = true ∨
      (validity_map (py_lower f.udt_name)).any
        (fun d => decide (d ∈ (["object", "string"] : List String))) = true) :
    type_validation f s = true := by
  have hne : ¬(validity_map (py_lower f.udt_name)).length = 0 := by
    rcases hacc with h | h <;>
    · obtain ⟨c, hc, _⟩ := List.any_eq_true.mp h
      simp [List.length_eq_zero, List.ne_nil_of_mem hc]
  by_cases hnum : (validity_map (py_lower f.udt_name)).any
      (fun c => decide (c ∈ numeric_dtypes)) = true
  · simp [type_validation, hne, hnum, hnull]
  · rcases hacc with h | h
    · exact absurd h hnum
    · simp [type_validation, hne, hnum, h, hnull]
      exact Or.inl (by simpa using h)

/-- C8 witness: an all-null column held with the generic object dtype
validates against a declared small-integer (`int2`) field. -/
theorem type_validation_all_null_witness :
    seriesNullObj.values.all pd_isna = true ∧
    type_validation fieldInt2 seriesNullObj = true :=
  ⟨rfl, type_validation_all_null fieldInt2 seriesNullObj rfl (Or.inl (by decide))⟩

/-- C9: updating the cache with stats and a snapshot whose row count matches
the stats' record count and immediately validating against the same stats
returns true. -/
theorem update_then_validate (st : CMState) (stats : TableStats) (df : Df)
    (hrc : stats.record_count = (df.rows.length : ℤ)) :
    validate_cache (update_cache st stats df).state stats = true := by
  have hstate : (update_cache st stats df).state =
      ⟨some df, some stats, some (calculate_hash df)⟩ := rfl
  rw [hstate, validate_cache_some_iff, tableStats_validate_fst_iff]
  exact ⟨⟨rfl, rfl, rfl⟩, hrc.symm, rfl⟩

/-- C9 witness: the theorem applied to a one-row snapshot with record count
1. -/
theorem update_then_validate_witness :
    statsW.record_count = (dfW.rows.length : ℤ) ∧
    validate_cache (update_cache cmSt0 statsW dfW).state statsW = true :=
  ⟨rfl, update_then_validate cmSt0 statsW dfW rfl⟩

/-- C3: with primary-key tuples unique within each snapshot, `gen_diffs`
puts every source row whose key is absent from the destination into the
upsert set, every destination row whose key is absent from the source into
the delete set, no row into both sets, and a row whose key exists in both
snapshots and whose matched pair satisfies `rows_are_equal` into neither
set. -/
theorem gen_diffs_completeness_minimality (src d : Df) (pks : List String)
    (up del : Option Df)
    (hsu : (src.rows.map (pkTuple pks)).Nodup)
    (hdu : (d.rows.map (pkTuple pks)).Nodup)
    (hres : gen_diffs src (some d) pks = .ok (up, del)) :
    (∀ (i : ℕ) (row : Row), src.rows[i]? = some row →
      (∀ drow ∈ d.rows, pkTuple pks drow ≠ pkTuple pks row) →
      ∃ updf, up = some updf ∧ row ∈ updf.rows) ∧
    (∀ drow ∈ d.rows,
      (∀ srow ∈ src.rows, pkTuple pks srow ≠ pkTuple pks drow) →
      ∃ deldf, del = some deldf ∧ drow ∈ deldf.rows) ∧
    (∀ r updf deldf, up = some updf → del = some deldf →
      r ∈ updf.rows → r ∈ deldf.rows → False) ∧
    (∀ (i j : ℕ) (srow drow : Row),
      src.rows[i]? = some srow → d.rows[j]? = some drow →
      pkTuple pks srow = pkTuple pks drow →
      rows_are_equal srow drow src.dtypes default_ignore_columns = .ok true →
      (∀ updf, up = some updf → srow ∉ updf.rows) ∧
      (∀ deldf, del = some deldf → drow ∉ deldf.rows)) := by
  obtain ⟨upIdx, hup, hup_eq, hdel_eq⟩ := gen_diffs_some_inv hres
  have hsIdx := index_by_pk_eq_entries hsu
  have hdIdx := index_by_pk_eq_entries hdu
  refine ⟨?_, ?_, ?_, ?_⟩
  · intro i row hget habs
    have hmem : (pkTuple pks row, i) ∈ index_by_pk pks src.rows := by
      rw [hsIdx]
      simpa using @pk_entries_mem_of_getElem? pks _ _ _ hget 0
    have hnone : alookup (index_by_pk pks d.rows) (pkTuple pks row) = none := by
      rw [index_by_pk_alookup_none_iff]
      exact habs
    have hi : i ∈ upIdx := upsert_loop_mem_of_new hup hmem hnone
    have hne : upIdx ≠ [] := List.ne_nil_of_mem hi
    refine ⟨Df.mk src.cols src.dtypes (iloc_rows src.rows upIdx), ?_, ?_⟩
    · rw [hup_eq, if_neg hne]
    · exact mem_iloc_rows.mpr ⟨i, hi, hget⟩
  · intro drow hdrow habs
    obtain ⟨j, hj⟩ := List.mem_iff_getElem?.mp hdrow
    have hmem : (pkTuple pks drow, j) ∈ index_by_pk pks d.rows := by
      rw [hdIdx]
      simpa using @pk_entries_mem_of_getElem? pks _ _ _ hj 0
    have hnone : alookup (index_by_pk pks src.rows) (pkTuple pks drow) = none := by
      rw [index_by_pk_alookup_none_iff]
      exact habs
    have hjdel : j ∈ delete_idx (index_by_pk pks src.rows)
        (index_by_pk pks d.rows) := by
      refine List.mem_map.mpr ⟨(pkTuple pks drow, j), ?_, rfl⟩
      refine List.mem_filter.mpr ⟨hmem, ?_⟩
      simp [hnone]
    have hne : delete_idx (index_by_pk pks src.rows)
        (index_by_pk pks d.rows) ≠ [] := List.ne_nil_of_mem hjdel
    refine ⟨Df.mk d.cols d.dtypes (iloc_rows d.rows
      (delete_idx (index_by_pk pks src.rows) (index_by_pk pks d.rows))), ?_, ?_⟩
    · rw [hdel_eq, if_neg hne]
    · exact mem_iloc_rows.mpr ⟨j, hjdel, hj⟩
  · intro r updf deldf hupdf hdeldf hru hrd
    rw [hup_eq] at hupdf
    by_cases hne : upIdx = []
    · rw [if_pos hne] at hupdf
      cases hupdf
    rw [if_neg hne] at hupdf
    cases hupdf
    obtain ⟨i, hiu, hgi⟩ := mem_iloc_rows.mp hru
    rw [hdel_eq] at hdeldf
    by_cases hne2 : delete_idx (index_by_pk pks src.rows)
        (index_by_pk pks d.rows) = []
    · rw [if_pos hne2] at hdeldf
      cases hdeldf
    rw [if_neg hne2] at hdeldf
    cases hdeldf
    obtain ⟨j, hjd, hgj⟩ := mem_iloc_rows.mp hrd
    obtain ⟨p, hpmem, hpj⟩ := List.mem_map.mp hjd
    have hfil := List.mem_filter.mp hpmem
    have hpk : p.1 = pkTuple pks r :=
      index_by_pk_entry_key hfil.1 (by rw [hpj]; exact hgj)
    have habs : alookup (index_by_pk pks src.rows) (pkTuple pks r) = none := by
      rw [← hpk]
      exact Option.isNone_iff_eq_none.mp hfil.2
    rw [index_by_pk_alookup_none_iff] at habs
    exact habs r (List.mem_iff_getElem?.mpr ⟨i, hgi⟩) rfl
  · intro i j srow drow hgi hgj hpk heqv
    have hmemi : (pkTuple pks srow, i) ∈ index_by_pk pks src.rows := by
      rw [hsIdx]
      simpa using @pk_entries_mem_of_getElem? pks _ _ _ hgi 0
    have hmemj : (pkTuple pks drow, j) ∈ index_by_pk pks d.rows := by
      rw [hdIdx]
      simpa using @pk_entries_mem_of_getElem? pks _ _ _ hgj 0
    have hlookupj : alookup (index_by_pk pks d.rows) (pkTuple pks srow) = some j := by
      rw [hpk]
      refine alookup_eq_some_of_nodup ?_ hmemj
      rw [index_by_pk]
      exact dict_last_keys_nodup _
    have hsnd : ((index_by_pk pks src.rows).map Prod.snd).Nodup := by
      rw [hsIdx]
      exact pk_entries_snds_nodup pks src.rows 0
    have hni : i ∉ upIdx :=
      upsert_loop_not_mem_of_equal hup hsnd hmemi hlookupj hgi hgj heqv
    constructor
    · intro updf hupdf hmem
      rw [hup_eq] at hupdf
      by_cases hne : upIdx = []
      · rw [if_pos hne] at hupdf
        cases hupdf
      rw [if_neg hne] at hupdf
      cases hupdf
      obtain ⟨i', hi'u, hgi'⟩ := mem_iloc_rows.mp hmem
      have hii : i' = i := nodup_getElem?_inj (hsu.of_map _) hgi' hgi
      rw [hii] at hi'u
      exact hni hi'u
    · intro deldf hdeldf hmem
      rw [hdel_eq] at hdeldf
      by_cases hne2 : delete_idx (index_by_pk pks src.rows)
          (index_by_pk pks d.rows) = []
      · rw [if_pos hne2] at hdeldf
        cases hdeldf
      rw [if_neg hne2] at hdeldf
      cases hdeldf
      obtain ⟨j', hj'd, hgj'⟩ := mem_iloc_rows.mp hmem
      have hjj : j' = j := nodup_getElem?_inj (hdu.of_map _) hgj' hgj
      rw [hjj] at hj'd
      obtain ⟨p, hpmem, hpj⟩ := List.mem_map.mp hj'd
      have hfil := List.mem_filter.mp hpmem
      have hpk' : p.1 = pkTuple pks drow :=
        index_by_pk_entry_key hfil.1 (by rw [hpj]; exact hgj)
      have habs := Option.isNone_iff_eq_none.mp hfil.2
      rw [hpk'] at habs
      rw [index_by_pk_alookup_none_iff] at habs
      exact habs srow (List.mem_iff_getElem?.mpr ⟨i, hgi⟩) hpk

/-- C3 witness: the theorem applied to the source with keys 1 and 2 and the
destination with keys 2 and 3 (row 2 identical in both): row 1 appears in
the upserts and row 3 in the deletes. -/
theorem gen_diffs_completeness_minimality_witness :
    (srcB.rows.map (pkTuple ["id"])).Nodup ∧
    (dstB.rows.map (pkTuple ["id"])).Nodup ∧
    gen_diffs srcB (some dstB) ["id"] = .ok (some upB, some delB) ∧
    (∃ updf, (some upB : Option Df) = some updf ∧ rowB1 ∈ updf.rows) ∧
    (∃ deldf, (some delB : Option Df) = some deldf ∧ rowB3 ∈ deldf.rows) :=
  ⟨by decide, by decide, rfl,
    (gen_diffs_completeness_minimality srcB dstB ["id"] (some upB) (some delB)
      (by decide) (by decide) rfl).1 0 rowB1 rfl (by decide),
    (gen_diffs_completeness_minimality srcB dstB ["id"] (some upB) (some delB)
      (by decide) (by decide) rfl).2.1 rowB3 (by decide) (by decide)⟩

/-- C10: with duplicate primary-key tuples in the source, the dictionary
built by insertion keeps only the last row per key: an earlier duplicate's
index never appears among the dictionary values nor in the upsert index set,
the key maps to the last occurrence, and `gen_diffs` raises no error on the
concrete duplicated input (returning a result that ignores the earlier
duplicate entirely). -/
theorem gen_diffs_duplicate_keys_last_wins (src dst : Df) (pks : List String)
    (i j : ℕ) (rowi rowj : Row)
    (hi : src.rows[i]? = some rowi) (hj : src.rows[j]? = some rowj)
    (hij : i < j) (hpk : pkTuple pks rowi = pkTuple pks rowj) :
    (i ∉ (index_by_pk pks src.rows).map Prod.snd) ∧
    (∀ L, upsert_loop src dst (index_by_pk pks dst.rows)
      (index_by_pk pks src.rows) = .ok L → i ∉ L) ∧
    ((∀ k rk, j < k → src.rows[k]? = some rk →
        pkTuple pks rk ≠ pkTuple pks rowj) →
      alookup (index_by_pk pks src.rows) (pkTuple pks rowi) = some j) ∧
    gen_diffs srcDup (some dstDup) ["id"] = .ok (none, none) := by
  refine ⟨index_by_pk_not_snd_of_dup hi hj hij hpk, ?_, ?_, rfl⟩
  · intro L hL hmem
    obtain ⟨pk, hpkmem⟩ := upsert_loop_sound hL hmem
    exact index_by_pk_not_snd_of_dup hi hj hij hpk
      (List.mem_map.mpr ⟨(pk, i), hpkmem, rfl⟩)
  · intro hlast
    rw [hpk]
    exact index_by_pk_last hj hlast

/-- C10 witness: the theorem applied to the concrete two-row source whose
rows share key 1. -/
theorem gen_diffs_duplicate_keys_last_wins_witness :
    ((0 : ℕ) ∉ (index_by_pk ["id"] srcDup.rows).map Prod.snd) ∧
    (∀ L, upsert_loop srcDup dstDup (index_by_pk ["id"] dstDup.rows)
      (index_by_pk ["id"] srcDup.rows) = .ok L → (0 : ℕ) ∉ L) ∧
    ((∀ k rk, 1 < k → srcDup.rows[k]? = some rk →
        pkTuple ["id"] rk ≠ pkTuple ["id"] rowD1) →
      alookup (index_by_pk ["id"] srcDup.rows) (pkTuple ["id"] rowD0) = some 1) ∧
    gen_diffs srcDup (some dstDup) ["id"] = .ok (none, none) :=
  gen_diffs_duplicate_keys_last_wins srcDup dstDup ["id"] 0 1 rowD0 rowD1
    rfl rfl (by omega) (by decide)

end Pandabase
